import Mathlib

/-!
Verification development for the kilo-style text editor in src/kilo.c.

The C program's row/render/highlight data model, document operations,
scroll computation, incremental search machinery and quit counter are
shallowly embedded as executable Lean definitions, translated directly
from the source.  Machine `int` values that are provably non-negative in
the modelled paths are embedded as `Nat`; values that the source can
drive negative (viewport offsets, search indices) are embedded as `Int`.
-/

/-- Tab stop width, `KILO_TAB_STOP` in kilo.c. -/
def KILO_TAB_STOP : Nat := 8

/-- Quit confirmation counter start value, `KILO_QUIT_TIMES` in kilo.c. -/
def KILO_QUIT_TIMES : Nat := 3

/-- Highlight class `HL_NORMAL`. -/
def HL_NORMAL : Nat := 0

/-- Highlight class `HL_NUMBER`. -/
def HL_NUMBER : Nat := 1

/-- Highlight class `HL_MATCH`. -/
def HL_MATCH : Nat := 2

/-- Key code `BACKSPACE` (127). -/
def BACKSPACE : Nat := 127

/-- Key code `ARROW_LEFT` (1000). -/
def ARROW_LEFT : Nat := 1000

/-- Key code `ARROW_RIGHT` (1001). -/
def ARROW_RIGHT : Nat := 1001

/-- Key code `ARROW_UP` (1002). -/
def ARROW_UP : Nat := 1002

/-- Key code `ARROW_DOWN` (1003). -/
def ARROW_DOWN : Nat := 1003

/-- Key code `DEL_KEY` (1004). -/
def DEL_KEY : Nat := 1004

/-- Byte value of the Enter key, the character `CR`. -/
def ENTER_KEY : Nat := 13

/-- Byte value of the Escape key. -/
def ESC_KEY : Nat := 27

/-- Byte value of `CTRL_KEY` applied to the letter q: `0x71 AND 0x1f`. -/
def CTRL_Q : Nat := 17

/-- Byte value of `CTRL_KEY` applied to the letter h. -/
def CTRL_H : Nat := 8

/-- Editor row `erow` from kilo.c.  The C struct carries explicit `size`
and `rsize` fields that the program keeps equal to the lengths of
`chars` and `render`; the embedding derives them from the lists. -/
structure erow where
  chars : List Char
  render : List Char
  hl : List Nat
deriving DecidableEq, Repr

instance : Inhabited erow := ⟨⟨[], [], []⟩⟩

/-- Derived `size` field of an `erow` (length of `chars`). -/
def erow.size (r : erow) : Nat := r.chars.length

/-- Derived `rsize` field of an `erow` (length of `render`). -/
def erow.rsize (r : erow) : Nat := r.render.length

/-- One step of the tab-advance rule shared by `editorRowCxToRx`,
`editorRowRxToCx` and `editorUpdateRow` in kilo.c: a tab advances the
display column to the next multiple of `KILO_TAB_STOP`, any other
character advances it by one. -/
def rxStep (c : Char) (rx : Nat) : Nat :=
  if c = '\t' then rx + (KILO_TAB_STOP - rx % KILO_TAB_STOP) else rx + 1

/-- Accumulator walk of `editorRowCxToRx` (kilo.c:302): fold `rxStep`
over a character list starting from display column `rx`. -/
def cxToRxAux : List Char → Nat → Nat
  | [], rx => rx
  | c :: cs, rx => cxToRxAux cs (rxStep c rx)

/-- `editorRowCxToRx` (kilo.c:302): display column of character index
`cx`, obtained by walking the first `cx` characters of the row. -/
def editorRowCxToRx (row : erow) (cx : Nat) : Nat :=
  cxToRxAux (row.chars.take cx) 0

/-- Accumulator walk of `editorRowRxToCx` (kilo.c:314): advance
`cur_rx` per character and stop as soon as it exceeds the target
display column `rx`; returns the number of characters consumed. -/
def rxToCxAux : List Char → Nat → Nat → Nat
  | [], _, _ => 0
  | c :: cs, cur, rx =>
    let cur1 := rxStep c cur
    if rx < cur1 then 0 else 1 + rxToCxAux cs cur1 rx

/-- `editorRowRxToCx` (kilo.c:314): character index whose display
column walk first exceeds `rx`; the row size if none does. -/
def editorRowRxToCx (row : erow) (rx : Nat) : Nat :=
  rxToCxAux row.chars 0 rx

/-- Render walk of `editorUpdateRow` (kilo.c:331): a tab emits one
space and then pads with spaces to the next multiple of
`KILO_TAB_STOP`; every other character is copied through. -/
def renderAux : List Char → Nat → List Char
  | [], _ => []
  | c :: cs, idx =>
    if c = '\t' then
      let pad := KILO_TAB_STOP - idx % KILO_TAB_STOP
      List.replicate pad ' ' ++ renderAux cs (idx + pad)
    else
      c :: renderAux cs (idx + 1)

/-- `editorUpdateSyntax` (kilo.c:276): one highlight tag per render
character, `HL_NUMBER` for decimal digits and `HL_NORMAL` otherwise. -/
def editorUpdateSyntax (render : List Char) : List Nat :=
  render.map (fun c => if c.isDigit then HL_NUMBER else HL_NORMAL)

/-- `editorUpdateRow` (kilo.c:331): regenerate `render` from `chars`
(expanding tabs) and then the highlight overlay from `render`. -/
def editorUpdateRow (row : erow) : erow :=
  let render := renderAux row.chars 0
  { row with render := render, hl := editorUpdateSyntax render }

/-- Row construction as performed by `editorInsertRow` (kilo.c:363):
copy the characters and run `editorUpdateRow`. -/
def mkRow (s : List Char) : erow :=
  editorUpdateRow { chars := s, render := [], hl := [] }

/-- `editorRowInsertChar` (kilo.c:407): an out-of-range index (negative
or past the end) is clamped to the row end, then the character is
inserted and render/highlight regenerated. -/
def editorRowInsertChar (row : erow) (i : Int) (c : Char) : erow :=
  let j : Int := if i < 0 ∨ i > (row.size : Int) then (row.size : Int) else i
  editorUpdateRow
    { row with chars := row.chars.take j.toNat ++ c :: row.chars.drop j.toNat }

/-- `editorRowDelChar` (kilo.c:431): out-of-range indices are a no-op;
otherwise the character at `i` is removed and render/highlight
regenerated. -/
def editorRowDelChar (row : erow) (i : Int) : erow :=
  if i < 0 ∨ i ≥ (row.size : Int) then row
  else
    editorUpdateRow
      { row with chars := row.chars.take i.toNat ++ row.chars.drop (i.toNat + 1) }

/-- `editorRowAppendString` (kilo.c:421): concatenate characters onto
the end of the row and regenerate render/highlight. -/
def editorRowAppendString (row : erow) (s : List Char) : erow :=
  editorUpdateRow { row with chars := row.chars ++ s }

/-- Editor configuration `struct editorConfig` from kilo.c, restricted
to the fields the modelled operations read or write (cursor, render
index, viewport offsets, screen dimensions and the row array; the
`dirty` counter is modelled separately with the quit logic, and the
file name, status message and terminal attributes are I/O state outside
the embedding).  `cx`, `cy` and `rx` are C `int`s that the program
keeps non-negative; `rowoff`/`coloff` are kept as `Int` because
`editorScroll` can drive `coloff` negative. -/
structure editorConfig where
  cx : Nat
  cy : Nat
  rx : Nat
  rowoff : Int
  coloff : Int
  screenrows : Nat
  screencols : Nat
  row : List erow
deriving DecidableEq, Repr

/-- Derived `numrows` field (length of the row array). -/
def editorConfig.numrows (st : editorConfig) : Nat := st.row.length

/-- `editorInsertRow` (kilo.c:363): guarded insertion of a fresh row at
index `i`; out-of-range indices are a no-op. -/
def editorInsertRow (st : editorConfig) (i : Int) (s : List Char) : editorConfig :=
  if i < 0 ∨ i > (st.numrows : Int) then st
  else { st with row := st.row.take i.toNat ++ mkRow s :: st.row.drop i.toNat }

/-- `editorDelRow` (kilo.c:395): guarded removal of row `i`;
out-of-range indices are a no-op. -/
def editorDelRow (st : editorConfig) (i : Int) : editorConfig :=
  if i < 0 ∨ i ≥ (st.numrows : Int) then st
  else { st with row := st.row.take i.toNat ++ st.row.drop (i.toNat + 1) }

/-- `editorInsertChar` (kilo.c:445): on the virtual past-end row first
append an empty row, then insert into the row at the cursor and advance
the cursor column. -/
def editorInsertChar (st : editorConfig) (c : Char) : editorConfig :=
  let st1 := if st.cy = st.numrows then editorInsertRow st (st.numrows : Int) [] else st
  let st2 := { st1 with
    row := st1.row.set st1.cy
      (editorRowInsertChar (st1.row.getD st1.cy default) (st1.cx : Int) c) }
  { st2 with cx := st2.cx + 1 }

/-- `editorDelChar` (kilo.c:470): backspace semantics.  No-op on the
virtual past-end row and at document start; with `cx > 0` delete the
preceding character in place; at column 0 of a later row record the
previous row's size, append the current row's characters to the
previous row, delete the current row and move the cursor up. -/
def editorDelChar (st : editorConfig) : editorConfig :=
  if st.cy = st.numrows then st
  else if st.cx = 0 ∧ st.cy = 0 then st
  else
    let row := st.row.getD st.cy default
    if 0 < st.cx then
      { st with
        row := st.row.set st.cy (editorRowDelChar row ((st.cx : Int) - 1)),
        cx := st.cx - 1 }
    else
      let prevSize := (st.row.getD (st.cy - 1) default).size
      let st1 := { st with
        cx := prevSize,
        row := st.row.set (st.cy - 1)
          (editorRowAppendString (st.row.getD (st.cy - 1) default) row.chars) }
      let st2 := editorDelRow st1 (st.cy : Int)
      { st2 with cy := st.cy - 1 }

/-- `editorScroll` (kilo.c:690): recompute `rx`, then clamp the
viewport offsets.  The final horizontal clamp reproduces kilo.c:708
verbatim, which subtracts `E.screenrows` (not `E.screencols`) when the
cursor is right of the visible window. -/
def editorScroll (st : editorConfig) : editorConfig :=
  let rx := if st.cy < st.numrows then
      editorRowCxToRx (st.row.getD st.cy default) st.cx
    else 0
  let rowoff1 := if (st.cy : Int) < st.rowoff then (st.cy : Int) else st.rowoff
  let rowoff2 := if (st.cy : Int) ≥ rowoff1 + (st.screenrows : Int) then
      (st.cy : Int) - (st.screenrows : Int) + 1
    else rowoff1
  let coloff1 := if (rx : Int) < st.coloff then (rx : Int) else st.coloff
  let coloff2 := if (rx : Int) ≥ coloff1 + (st.screencols : Int) then
      (rx : Int) - (st.screenrows : Int) + 1
    else coloff1
  { st with rx := rx, rowoff := rowoff2, coloff := coloff2 }

/-- Concrete editor state for the scroll check: a 12-character row with
the cursor at its end, viewport at origin, 10 screen rows and 5 screen
columns. -/
def scrollProbe : editorConfig :=
  { cx := 12, cy := 0, rx := 0, rowoff := 0, coloff := 0,
    screenrows := 10, screencols := 5,
    row := [mkRow (List.replicate 12 'a')] }

/-- Quit-counter component of `editorProcessKeypress` (kilo.c:952):
given the dirty counter, the current `quit_times` value and the pressed
key, returns `none` when the process calls `exit(0)`, and otherwise
`some (qt, warn)` with the counter value after the keystroke and, when
the guarded Ctrl-Q warning path ran, the remaining-press count it put
in the status message.  Every key other than Ctrl-Q falls through to
the trailing `quit_times = KILO_QUIT_TIMES` reset (only the warning
path returns early), whatever else the key does to the editor state. -/
def editorProcessKeypressQuit (dirty : Nat) (quit_times : Nat) (c : Nat) :
    Option (Nat × Option Nat) :=
  if c = CTRL_Q then
    if dirty ≠ 0 ∧ 0 < quit_times then some (quit_times - 1, some quit_times)
    else none
  else some (KILO_QUIT_TIMES, none)

/-- Iterate `editorProcessKeypressQuit` over a key sequence: `none`
when the process exited during the sequence, otherwise the surviving
counter value. -/
def runQuitKeys (dirty : Nat) : Nat → List Nat → Option Nat
  | qt, [] => some qt
  | qt, c :: rest =>
    match editorProcessKeypressQuit dirty qt c with
    | none => none
    | some (qt2, _) => runQuitKeys dirty qt2 rest

/-- Concrete two-row document with the cursor at column 0 of row 1,
used to witness the C7 merge case. -/
def mergeProbe : editorConfig :=
  { cx := 0, cy := 1, rx := 0, rowoff := 0, coloff := 0,
    screenrows := 10, screencols := 10,
    row := [mkRow ['a', 'b'], mkRow ['c', 'd']] }

/-- Concrete empty document used to witness C10. -/
def emptyDoc : editorConfig :=
  { cx := 0, cy := 0, rx := 0, rowoff := 0, coloff := 0,
    screenrows := 10, screencols := 10, row := [] }

/-- First occurrence position of `ndl` in `hay`, the `strstr` libc call
used by `editorFindCallback` (match offset `match - row->render`);
`none` when there is no occurrence.  An empty needle matches at 0. -/
def strstrPos (hay ndl : List Char) : Option Nat :=
  if ndl.isPrefixOf hay then some 0
  else
    match hay with
    | [] => none
    | _ :: t => (strstrPos t ndl).map (fun p => p + 1)

/-- The static state of `editorFindCallback` (kilo.c:577): the row of
the last match (or -1), the search direction (1 or -1), and the saved
highlight snapshot together with the row it belongs to (`saved_hl_line`
and `saved_hl`; the line number is only ever read while a snapshot
exists, so the two C statics are modelled as one option). -/
structure FindState where
  last_match : Int
  direction : Int
  saved_hl : Option (Nat × List Nat)
deriving DecidableEq, Repr

/-- Values of the callback statics at program start and after every
terminated search prompt. -/
def initialFindState : FindState :=
  { last_match := -1, direction := 1, saved_hl := none }

/-- A row after `memcpy(row->hl, saved, row->rsize)`: the saved bytes
overwrite the first `rsize` highlight bytes. -/
def restoredRow (r : erow) (saved : List Nat) : erow :=
  { r with hl := saved.take r.rsize ++ r.hl.drop r.rsize }

/-- A row after `memset(&row->hl[pos], HL_MATCH, strlen(query))`: the
matched span of the highlight array is overwritten with `HL_MATCH`. -/
def matchedRow (r : erow) (q : List Char) (pos : Nat) : erow :=
  { r with hl := r.hl.take pos ++ List.replicate q.length HL_MATCH ++
      r.hl.drop (pos + q.length) }

/-- The snapshot restore at the top of `editorFindCallback`
(kilo.c:584): `memcpy` the saved bytes back over the first `rsize`
bytes of the owning row's highlight array. -/
def hlRestore (st : editorConfig) (fs : FindState) : editorConfig :=
  match fs.saved_hl with
  | none => st
  | some (line, saved) =>
    { st with row := st.row.set line (restoredRow (st.row.getD line default) saved) }

/-- The match branch of the search loop (kilo.c:623): record the match
row, move the cursor there (column via `editorRowRxToCx` of the display
offset), force `rowoff` to the row count, snapshot the row's highlight
bytes and overwrite the matched span with `HL_MATCH`. -/
def applyMatch (st : editorConfig) (fs : FindState) (q : List Char)
    (cur : Nat) (pos : Nat) : editorConfig × FindState :=
  ({ st with
      cy := cur
      cx := editorRowRxToCx (st.row.getD cur default) pos
      rowoff := (st.numrows : Int)
      row := st.row.set cur (matchedRow (st.row.getD cur default) q pos) },
   { fs with
      last_match := (cur : Int)
      saved_hl := some (cur, (st.row.getD cur default).hl) })

/-- The search loop of `editorFindCallback` (kilo.c:611): starting from
`current`, advance by `direction`, wrap -1 to the last row and the row
count to 0, and stop at the first row whose render contains the query;
`fuel` is the loop bound `E.numrows`. -/
def findLoop (st : editorConfig) (fs : FindState) (q : List Char) :
    Int → Nat → editorConfig × FindState
  | _, 0 => (st, fs)
  | current, fuel + 1 =>
    let cur1 := current + fs.direction
    let cur2 : Int :=
      if cur1 = -1 then (st.numrows : Int) - 1
      else if cur1 = (st.numrows : Int) then 0
      else cur1
    match strstrPos (st.row.getD cur2.toNat default).render q with
    | some pos => applyMatch st fs q cur2.toNat pos
    | none => findLoop st fs q cur2 fuel

/-- `editorFindCallback` (kilo.c:577): restore and drop any pending
highlight snapshot, then either terminate on Enter/Escape (resetting
`last_match` and `direction`), or update the direction from arrow keys
(any other key restarts as a fresh forward search), force forward
search when there is no last match, and run the search loop. -/
def editorFindCallback (q : List Char) (key : Nat) (st : editorConfig)
    (fs : FindState) : editorConfig × FindState :=
  let st1 := hlRestore st fs
  let fs1 : FindState := { fs with saved_hl := none }
  if key = ENTER_KEY ∨ key = ESC_KEY then
    (st1, { fs1 with last_match := -1, direction := 1 })
  else
    let fs2 :=
      if key = ARROW_RIGHT ∨ key = ARROW_DOWN then { fs1 with direction := 1 }
      else if key = ARROW_LEFT ∨ key = ARROW_UP then { fs1 with direction := -1 }
      else { fs1 with last_match := -1, direction := 1 }
    let fs3 := if fs2.last_match = -1 then { fs2 with direction := 1 } else fs2
    findLoop st1 fs3 q fs3.last_match st1.numrows

/-- `editorPrompt` (kilo.c:862) specialized to the find callback, run
over a list of key codes: delete keys shorten the buffer, Escape ends
the prompt returning NULL (modelled `some none`), Enter with a
non-empty buffer ends it returning the buffer (`some (some buf)`),
printable bytes (32..126) are appended, and the callback runs after
every keystroke.  An exhausted key list leaves the C loop still waiting
for input, modelled as outcome `none`. -/
def editorPrompt (st : editorConfig) (fs : FindState) (buf : List Char) :
    List Nat → editorConfig × FindState × Option (Option (List Char))
  | [] => (st, fs, none)
  | c :: rest =>
    if c = DEL_KEY ∨ c = CTRL_H ∨ c = BACKSPACE then
      let buf2 := buf.dropLast
      let r := editorFindCallback buf2 c st fs
      editorPrompt r.1 r.2 buf2 rest
    else if c = ESC_KEY then
      let r := editorFindCallback buf c st fs
      (r.1, r.2, some none)
    else if c = ENTER_KEY then
      if buf.length ≠ 0 then
        let r := editorFindCallback buf c st fs
        (r.1, r.2, some (some buf))
      else
        let r := editorFindCallback buf c st fs
        editorPrompt r.1 r.2 buf rest
    else if 32 ≤ c ∧ c ≤ 126 then
      let buf2 := buf ++ [Char.ofNat c]
      let r := editorFindCallback buf2 c st fs
      editorPrompt r.1 r.2 buf2 rest
    else
      let r := editorFindCallback buf c st fs
      editorPrompt r.1 r.2 buf rest

/-- `editorFind` (kilo.c:639) as written in this snapshot: save the
cursor and viewport, run the search prompt, and then — reproducing the
source verbatim — call `free` on a NULL query when the prompt was
cancelled with Escape (restoring nothing), while restoring the saved
cursor/viewport exactly when the prompt returned a query (Enter). -/
def editorFind (st : editorConfig) (fs : FindState) (keys : List Nat) :
    editorConfig × FindState × Option (Option (List Char)) :=
  let saved_cx := st.cx
  let saved_cy := st.cy
  let saved_coloff := st.coloff
  let saved_rowoff := st.rowoff
  let r := editorPrompt st fs [] keys
  match r.2.2 with
  | some none => r
  | some (some _) =>
    let st2 : editorConfig :=
      { r.1 with
        cx := saved_cx
        cy := saved_cy
        coloff := saved_coloff
        rowoff := saved_rowoff }
    (st2, r.2.1, r.2.2)
  | none => r

/-- Concrete one-row document (characters x, y) with cursor and
viewport at the origin, used to evaluate the search session claims. -/
def findProbe : editorConfig :=
  { cx := 0, cy := 0, rx := 0, rowoff := 0, coloff := 0,
    screenrows := 10, screencols := 10,
    row := [mkRow ['x', 'y']] }

/-- Concrete three-row document (ab, cd, ef) whose only row containing
the query a is row 0, used to witness C8. -/
def wrapProbe : editorConfig :=
  { cx := 0, cy := 0, rx := 0, rowoff := 0, coloff := 0,
    screenrows := 10, screencols := 10,
    row := [mkRow ['a', 'b'], mkRow ['c', 'd'], mkRow ['e', 'f']] }

/-- The render sequences of all rows of an editor state. -/
def rowsRender (st : editorConfig) : List (List Char) := st.row.map erow.render

/-- The highlight sequences of all rows of an editor state. -/
def rowsHl (st : editorConfig) : List (List Nat) := st.row.map erow.hl

/-- Well-formedness maintained by `editorUpdateRow`: each row's
highlight array has exactly `rsize` entries. -/
def hlWF (st : editorConfig) : Bool :=
  st.row.all (fun r => r.hl.length == r.render.length)

/-- Search invariant relative to the pre-search state `st0`: renders
are unchanged, and undoing the pending snapshot (if any) recovers all
the original highlight sequences.  `FindState.saved_hl` being a single
`Option` is the model of at most one snapshot existing at a time. -/
def SearchInv (st0 st : editorConfig) (fs : FindState) : Prop :=
  rowsRender st = rowsRender st0 ∧ rowsHl (hlRestore st fs) = rowsHl st0

/-- The per-character display advance is strictly positive. -/
theorem rxStep_gt (c : Char) (rx : Nat) : rx < rxStep c rx := by
  unfold rxStep
  split
  · have h : rx % KILO_TAB_STOP < KILO_TAB_STOP := Nat.mod_lt _ (by decide)
    omega
  · omega

/-- The accumulator of `cxToRxAux` never decreases. -/
theorem le_cxToRxAux (cs : List Char) : ∀ rx : Nat, rx ≤ cxToRxAux cs rx := by
  induction cs with
  | nil => intro rx; exact Nat.le_refl _
  | cons c cs ih =>
    intro rx
    exact Nat.le_trans (Nat.le_of_lt (rxStep_gt c rx)) (ih (rxStep c rx))

/-- Round trip of the two walks, generalized over the accumulator. -/
theorem rxToCxAux_cxToRxAux (cs : List Char) :
    ∀ (cx k : Nat), cx ≤ cs.length →
      rxToCxAux cs k (cxToRxAux (cs.take cx) k) = cx := by
  induction cs with
  | nil =>
    intro cx k h
    have hcx : cx = 0 := Nat.le_zero.mp h
    subst hcx
    rfl
  | cons c cs ih =>
    intro cx k h
    cases cx with
    | zero =>
      simp only [List.take_zero, cxToRxAux, rxToCxAux]
      rw [if_pos (rxStep_gt c k)]
    | succ n =>
      simp only [List.take_succ_cons, cxToRxAux, rxToCxAux]
      have hle : rxStep c k ≤ cxToRxAux (cs.take n) (rxStep c k) :=
        le_cxToRxAux _ _
      rw [if_neg (by omega)]
      have hn : n ≤ cs.length := by
        simpa using Nat.succ_le_succ_iff.mp (by simpa using h)
      rw [ih n (rxStep c k) hn]
      omega

/-- C4: for every row and every valid logical column `cx` with
`0 ≤ cx ≤ row.size`, converting to display space and back is the
identity: `editorRowRxToCx row (editorRowCxToRx row cx) = cx`. -/
theorem rxToCx_cxToRx_roundtrip (row : erow) (cx : Nat) (h : cx ≤ row.size) :
    editorRowRxToCx row (editorRowCxToRx row cx) = cx :=
  rxToCxAux_cxToRxAux row.chars cx 0 h

/-- Witness for C4: the round trip evaluated at the row with characters
a, TAB, b and column 3. -/
theorem rxToCx_cxToRx_roundtrip_witness :
    3 ≤ (mkRow ['a', '\t', 'b']).size ∧
      editorRowRxToCx (mkRow ['a', '\t', 'b'])
        (editorRowCxToRx (mkRow ['a', '\t', 'b']) 3) = 3 :=
  ⟨by decide, rxToCx_cxToRx_roundtrip (mkRow ['a', '\t', 'b']) 3 (by decide)⟩

/-- C5: for the row whose characters are exactly a, TAB, b under
tab-stop width 8, the render transform yields `rsize = 9` and render
equal to a followed by 7 spaces followed by b, and the column mappings
satisfy `cxToRx 1 = 1`, `cxToRx 2 = 8` and `rxToCx 8 = 2`. -/
theorem tab_row_render_spec :
    (mkRow ['a', '\t', 'b']).rsize = 9 ∧
      (mkRow ['a', '\t', 'b']).render =
        'a' :: (List.replicate 7 ' ' ++ ['b']) ∧
      editorRowCxToRx (mkRow ['a', '\t', 'b']) 1 = 1 ∧
      editorRowCxToRx (mkRow ['a', '\t', 'b']) 2 = 8 ∧
      editorRowRxToCx (mkRow ['a', '\t', 'b']) 8 = 2 := by
  decide

/-- Counterexample for C6 as stated: at the out-of-range column 1 of an
empty row, inserting x (which clamps to column 0) and then deleting at
column 1 (a no-op) does not restore the original content. -/
theorem insert_delete_out_of_range_not_identity :
    (editorRowDelChar (editorRowInsertChar (mkRow []) 1 'x') 1).chars ≠
      (mkRow []).chars := by
  decide

/-- C6 (amended to in-range columns): for every row and every column
`i` with `0 ≤ i ≤ row.size`, inserting a character at `i` and then
deleting the character at `i` leaves the row's character content
exactly as it was before. -/
theorem insert_then_delete_identity (r : erow) (i : Int) (c : Char)
    (h0 : 0 ≤ i) (h1 : i ≤ (r.size : Int)) :
    (editorRowDelChar (editorRowInsertChar r i c) i).chars = r.chars := by
  obtain ⟨n, rfl⟩ : ∃ n : Nat, i = (n : Int) :=
    ⟨i.toNat, (Int.toNat_of_nonneg h0).symm⟩
  have hn : n ≤ r.chars.length := by
    simp only [erow.size] at h1
    exact_mod_cast h1
  have hnot : ¬(((n : Int) < 0) ∨ ((n : Int) > ((r.size : Nat) : Int))) := by
    simp only [erow.size] at h1 ⊢
    omega
  have hins :
      (editorRowInsertChar r (n : Int) c).chars =
        r.chars.take n ++ c :: r.chars.drop n := by
    simp only [editorRowInsertChar]
    rw [if_neg hnot]
    simp [editorUpdateRow]
  have hlen : (editorRowInsertChar r (n : Int) c).chars.length =
      r.chars.length + 1 := by
    rw [hins]
    simp only [List.length_append, List.length_take, List.length_cons,
      List.length_drop]
    omega
  have hnot2 : ¬(((n : Int) < 0) ∨
      ((n : Int) ≥ (((editorRowInsertChar r (n : Int) c).size : Nat) : Int))) := by
    simp only [erow.size, hlen]
    omega
  simp only [editorRowDelChar]
  rw [if_neg hnot2]
  simp only [editorUpdateRow, hins, Int.toNat_natCast]
  have htake : (r.chars.take n).length = n := by
    rw [List.length_take]
    omega
  have heq1 : (r.chars.take n ++ c :: r.chars.drop n).take n = r.chars.take n := by
    have h := List.take_left (r.chars.take n) (c :: r.chars.drop n)
    rwa [htake] at h
  have heq2 : (r.chars.take n ++ c :: r.chars.drop n).drop (n + 1) =
      r.chars.drop n := by
    have h := List.drop_left (r.chars.take n ++ [c]) (r.chars.drop n)
    rw [List.length_append, htake] at h
    simpa using h
  rw [heq1, heq2]
  exact List.take_append_drop n r.chars

/-- Witness for C6: the amended round trip evaluated at the row ab,
column 1, character z. -/
theorem insert_then_delete_identity_witness :
    (0 : Int) ≤ 1 ∧ (1 : Int) ≤ ((mkRow ['a', 'b']).size : Int) ∧
      (editorRowDelChar (editorRowInsertChar (mkRow ['a', 'b']) 1 'z') 1).chars =
        (mkRow ['a', 'b']).chars :=
  ⟨by decide, by decide,
    insert_then_delete_identity (mkRow ['a', 'b']) 1 'z' (by decide) (by decide)⟩

/-- Setting an index past the end of a list is a no-op. -/
theorem list_set_of_length_le {α : Type} (l : List α) (i : Nat) (a : α)
    (h : l.length ≤ i) : l.set i a = l := by
  induction l generalizing i with
  | nil => rfl
  | cons x t ih =>
    cases i with
    | zero => simp at h
    | succ n =>
      simp only [List.set]
      rw [ih n (by simpa using h)]

/-- Reading back a just-set in-range index. -/
theorem getD_set_self {α : Type} (l : List α) (i : Nat) (a d : α)
    (h : i < l.length) : (l.set i a).getD i d = a := by
  induction l generalizing i with
  | nil => simp at h
  | cons x t ih =>
    cases i with
    | zero => rfl
    | succ n =>
      simp only [List.set, List.getD_cons_succ]
      exact ih n (by simpa using h)

/-- Reading any other index after a set. -/
theorem getD_set_ne {α : Type} (l : List α) (i j : Nat) (a d : α)
    (h : i ≠ j) : (l.set i a).getD j d = l.getD j d := by
  induction l generalizing i j with
  | nil => rfl
  | cons x t ih =>
    cases i with
    | zero =>
      cases j with
      | zero => exact absurd rfl h
      | succ m => rfl
    | succ n =>
      cases j with
      | zero => rfl
      | succ m =>
        simp only [List.set, List.getD_cons_succ]
        exact ih n m (by omega)

/-- `getD` through `map`. -/
theorem map_getD {α β : Type} (f : α → β) (l : List α) (i : Nat) (d : α) :
    (l.map f).getD i (f d) = f (l.getD i d) := by
  induction l generalizing i with
  | nil => rfl
  | cons x t ih =>
    cases i with
    | zero => rfl
    | succ n => simp only [List.map_cons, List.getD_cons_succ]; exact ih n

/-- A set whose image under `f` agrees with the old entry does not
change the `f`-image of the list. -/
theorem map_set_of_eq {α β : Type} (f : α → β) (l : List α) (i : Nat)
    (a d : α) (h : f a = f (l.getD i d)) : (l.set i a).map f = l.map f := by
  induction l generalizing i with
  | nil => rfl
  | cons x t ih =>
    cases i with
    | zero => simpa using h
    | succ n =>
      simp only [List.set, List.map_cons, List.cons.injEq, true_and]
      exact ih n (by simpa using h)

/-- `getD` inside the left part of an append. -/
theorem getD_append_left {α : Type} (l₁ l₂ : List α) (i : Nat) (d : α)
    (h : i < l₁.length) : (l₁ ++ l₂).getD i d = l₁.getD i d := by
  induction l₁ generalizing i with
  | nil => simp at h
  | cons x t ih =>
    cases i with
    | zero => rfl
    | succ n =>
      simp only [List.cons_append, List.getD_cons_succ]
      exact ih n (by simpa using h)

/-- `getD` inside a `take` prefix. -/
theorem getD_take_lt {α : Type} (l : List α) (n i : Nat) (d : α)
    (h : i < n) : (l.take n).getD i d = l.getD i d := by
  induction l generalizing n i with
  | nil => simp
  | cons x t ih =>
    cases n with
    | zero => omega
    | succ m =>
      cases i with
      | zero => rfl
      | succ k =>
        simp only [List.take_succ_cons, List.getD_cons_succ]
        exact ih m k (by omega)

/-- Reading the appended last element. -/
theorem getD_append_length {α : Type} (l : List α) (x : α) (d : α) :
    (l ++ [x]).getD l.length d = x := by
  induction l with
  | nil => rfl
  | cons a t ih =>
    simp only [List.cons_append, List.length_cons, List.getD_cons_succ]
    exact ih

/-- Setting the appended last element. -/
theorem set_append_length {α : Type} (l : List α) (x b : α) :
    (l ++ [x]).set l.length b = l ++ [b] := by
  induction l with
  | nil => rfl
  | cons a t ih =>
    show a :: ((t ++ [x]).set t.length b) = a :: (t ++ [b])
    rw [ih]

/-- C2 fails on the code: after `editorScroll` on `scrollProbe`
(screen_rows = 10 ≠ 5 = screen_cols), the horizontal half of the
viewport invariant `col_off ≤ rx < col_off + screen_cols` is violated,
because kilo.c:708 computes the new `coloff` with `E.screenrows`
instead of `E.screencols`.  The vertical half still holds. -/
theorem editorScroll_violates_viewport_invariant :
    ((editorScroll scrollProbe).rowoff ≤ ((editorScroll scrollProbe).cy : Int) ∧
      ((editorScroll scrollProbe).cy : Int) <
        (editorScroll scrollProbe).rowoff +
          ((editorScroll scrollProbe).screenrows : Int)) ∧
    ¬((editorScroll scrollProbe).coloff ≤ ((editorScroll scrollProbe).rx : Int) ∧
      ((editorScroll scrollProbe).rx : Int) <
        (editorScroll scrollProbe).coloff +
          ((editorScroll scrollProbe).screencols : Int)) := by
  decide

/-- Counterexample to C3 as stated: starting from a dirty document and
a fresh counter, after exactly 3 consecutive Ctrl-Q presses the process
has not terminated (the counter merely reaches 0); the claimed
termination after 3 presses is false. -/
theorem three_quit_presses_do_not_exit :
    runQuitKeys 1 KILO_QUIT_TIMES [CTRL_Q, CTRL_Q, CTRL_Q] = some 0 ∧
      runQuitKeys 1 KILO_QUIT_TIMES [CTRL_Q, CTRL_Q, CTRL_Q] ≠ none := by
  decide

/-- C3 (amended): from a dirty document and a fresh counter the process
terminates on the 4th consecutive Ctrl-Q press (`KILO_QUIT_TIMES + 1`
presses in total); each of the first three presses shows a warning with
the remaining count (3, then 2, then 1) instead of exiting; and any
non-quit keystroke resets the counter to `KILO_QUIT_TIMES = 3`. -/
theorem quit_counter_spec (d qt c : Nat) (h : c ≠ CTRL_Q) :
    runQuitKeys 1 KILO_QUIT_TIMES [CTRL_Q, CTRL_Q, CTRL_Q, CTRL_Q] = none ∧
    editorProcessKeypressQuit 1 3 CTRL_Q = some (2, some 3) ∧
    editorProcessKeypressQuit 1 2 CTRL_Q = some (1, some 2) ∧
    editorProcessKeypressQuit 1 1 CTRL_Q = some (0, some 1) ∧
    editorProcessKeypressQuit 1 0 CTRL_Q = none ∧
    editorProcessKeypressQuit d qt c = some (KILO_QUIT_TIMES, none) := by
  refine ⟨by decide, by decide, by decide, by decide, by decide, ?_⟩
  simp [editorProcessKeypressQuit, h]

/-- Witness for C3's amended theorem at the concrete non-quit key 97
(letter a). -/
theorem quit_counter_spec_witness :
    97 ≠ CTRL_Q ∧
      editorProcessKeypressQuit 1 3 97 = some (KILO_QUIT_TIMES, none) :=
  ⟨by decide, (quit_counter_spec 1 3 97 (by decide)).2.2.2.2.2⟩

/-- Content of a row after `editorRowAppendString`. -/
theorem editorRowAppendString_chars (r : erow) (s : List Char) :
    (editorRowAppendString r s).chars = r.chars ++ s := by
  simp [editorRowAppendString, editorUpdateRow]

/-- C7: for every document with the cursor at column 0 of a non-first
real row, `editorDelChar` appends the current row's entire content to
the previous row (the merged chars are the concatenation, so its length
is the sum of the two original lengths), deletes the current row (row
count decreases by exactly one) and moves the cursor to the previous
row at the column equal to that row's length before the append;
backspace is a no-op on the virtual past-end row and at row 0
column 0. -/
theorem delChar_merge_spec (st : editorConfig) :
    (0 < st.cy → st.cy < st.numrows → st.cx = 0 →
      (editorDelChar st).numrows + 1 = st.numrows ∧
      ((editorDelChar st).row.getD (st.cy - 1) default).chars =
        (st.row.getD (st.cy - 1) default).chars ++
          (st.row.getD st.cy default).chars ∧
      ((editorDelChar st).row.getD (st.cy - 1) default).size =
        (st.row.getD (st.cy - 1) default).size +
          (st.row.getD st.cy default).size ∧
      (editorDelChar st).cy = st.cy - 1 ∧
      (editorDelChar st).cx = (st.row.getD (st.cy - 1) default).size) ∧
    (st.cy = st.numrows → editorDelChar st = st) ∧
    (st.cx = 0 → st.cy = 0 → editorDelChar st = st) := by
  refine ⟨?_, ?_, ?_⟩
  · intro h1 h2 h3
    have hlen : st.cy < st.row.length := h2
    have hne : ¬(st.cy = st.numrows) := by omega
    have hnand : ¬(st.cx = 0 ∧ st.cy = 0) := by
      rintro ⟨-, h0⟩; omega
    have hnpos : ¬(0 < st.cx) := by omega
    unfold editorDelChar
    rw [if_neg hne, if_neg hnand, if_neg hnpos]
    simp only []
    set merged := editorRowAppendString (st.row.getD (st.cy - 1) default)
      ((st.row.getD st.cy default).chars) with hmerged
    have hsetlen : (st.row.set (st.cy - 1) merged).length = st.row.length := by
      simp
    have hguard : ¬((st.cy : Int) < 0 ∨
        (st.cy : Int) ≥
          (({ st with
              cx := (st.row.getD (st.cy - 1) default).size,
              row := st.row.set (st.cy - 1) merged } : editorConfig).numrows :
            Int)) := by
      simp only [editorConfig.numrows, hsetlen]
      omega
    unfold editorDelRow
    rw [if_neg hguard]
    simp only [editorConfig.numrows, Int.toNat_natCast]
    have htakelen : ((st.row.set (st.cy - 1) merged).take st.cy).length = st.cy := by
      rw [List.length_take]
      omega
    have hgetd :
        (((st.row.set (st.cy - 1) merged).take st.cy ++
            (st.row.set (st.cy - 1) merged).drop (st.cy + 1)).getD
          (st.cy - 1) default) = merged := by
      rw [getD_append_left _ _ _ _ (by omega)]
      rw [getD_take_lt _ _ _ _ (by omega)]
      exact getD_set_self _ _ _ _ (by omega)
    refine ⟨?_, ?_, ?_, by trivial, by trivial⟩
    · simp only [List.length_append, List.length_take, List.length_drop, hsetlen]
      omega
    · rw [hgetd, hmerged, editorRowAppendString_chars]
    · rw [hgetd, hmerged]
      simp only [erow.size, editorRowAppendString_chars, List.length_append]
  · intro h
    unfold editorDelChar
    rw [if_pos h]
  · intro hx hy
    unfold editorDelChar
    by_cases h : st.cy = st.numrows
    · rw [if_pos h]
    · rw [if_neg h, if_pos ⟨hx, hy⟩]

/-- Witness for C7: the merge case of `delChar_merge_spec` evaluated on
`mergeProbe`. -/
theorem delChar_merge_spec_witness :
    (0 < mergeProbe.cy ∧ mergeProbe.cy < mergeProbe.numrows ∧
        mergeProbe.cx = 0) ∧
      ((editorDelChar mergeProbe).numrows + 1 = mergeProbe.numrows ∧
        ((editorDelChar mergeProbe).row.getD (mergeProbe.cy - 1) default).chars =
          (mergeProbe.row.getD (mergeProbe.cy - 1) default).chars ++
            (mergeProbe.row.getD mergeProbe.cy default).chars ∧
        ((editorDelChar mergeProbe).row.getD (mergeProbe.cy - 1) default).size =
          (mergeProbe.row.getD (mergeProbe.cy - 1) default).size +
            (mergeProbe.row.getD mergeProbe.cy default).size ∧
        (editorDelChar mergeProbe).cy = mergeProbe.cy - 1 ∧
        (editorDelChar mergeProbe).cx =
          (mergeProbe.row.getD (mergeProbe.cy - 1) default).size) :=
  ⟨⟨by decide, by decide, by decide⟩,
    (delChar_merge_spec mergeProbe).1 (by decide) (by decide) (by decide)⟩

/-- C10: inserting a printable character with the cursor on the virtual
past-end row (and hence at column 0) first appends a new empty row,
then inserts the character into it: the row count grows by exactly one,
the new last row consists of exactly that character, and the cursor
ends at column 1 of that (last) row. -/
theorem insertChar_virtual_row_spec (st : editorConfig) (c : Char)
    (h1 : st.cy = st.numrows) (h2 : st.cx = 0) :
    (editorInsertChar st c).numrows = st.numrows + 1 ∧
      ((editorInsertChar st c).row.getD ((editorInsertChar st c).numrows - 1)
          default).chars = [c] ∧
      (editorInsertChar st c).cx = 1 ∧
      (editorInsertChar st c).cy = (editorInsertChar st c).numrows - 1 := by
  have hrow1 : editorInsertRow st (st.numrows : Int) [] =
      { st with row := st.row ++ [mkRow []] } := by
    unfold editorInsertRow
    rw [if_neg (by omega)]
    simp [editorConfig.numrows]
  have hchar : (editorRowInsertChar (mkRow []) ((0 : Nat) : Int) c).chars = [c] := by
    simp [editorRowInsertChar, mkRow, editorUpdateRow, renderAux,
      editorUpdateSyntax, erow.size]
  unfold editorInsertChar
  rw [if_pos h1, hrow1]
  simp only []
  have hcy : st.cy = st.row.length := h1
  have hget : ((st.row ++ [mkRow []]).getD st.cy default) = mkRow [] := by
    rw [hcy]
    exact getD_append_length _ _ _
  have hset : ((st.row ++ [mkRow []]).set st.cy
      (editorRowInsertChar ((st.row ++ [mkRow []]).getD st.cy default)
        ((st.cx : Nat) : Int) c)) =
      st.row ++ [editorRowInsertChar (mkRow []) ((0 : Nat) : Int) c] := by
    rw [hget, h2, hcy]
    exact set_append_length _ _ _
  rw [hset]
  have hlen2 : (st.row ++ [editorRowInsertChar (mkRow []) ((0 : Nat) : Int) c]).length =
      st.row.length + 1 := by simp
  refine ⟨?_, ?_, ?_, ?_⟩
  · simp [editorConfig.numrows]
  · simp only [editorConfig.numrows, hlen2, Nat.add_sub_cancel, ← hcy]
    rw [hcy]
    rw [getD_append_length]
    exact hchar
  · simp [h2]
  · simp only [editorConfig.numrows, hlen2, Nat.add_sub_cancel]
    exact hcy

/-- Witness for C10: inserting the letter q into the empty document. -/
theorem insertChar_virtual_row_spec_witness :
    (emptyDoc.cy = emptyDoc.numrows ∧ emptyDoc.cx = 0) ∧
      ((editorInsertChar emptyDoc 'q').numrows = emptyDoc.numrows + 1 ∧
        ((editorInsertChar emptyDoc 'q').row.getD
            ((editorInsertChar emptyDoc 'q').numrows - 1) default).chars = ['q'] ∧
        (editorInsertChar emptyDoc 'q').cx = 1 ∧
        (editorInsertChar emptyDoc 'q').cy =
          (editorInsertChar emptyDoc 'q').numrows - 1) :=
  ⟨⟨by decide, by decide⟩,
    insertChar_virtual_row_spec emptyDoc 'q' (by decide) (by decide)⟩

/-- C1 fails on the code: in `editorFind` (kilo.c:648-655) the two
branches are swapped relative to the spec.  Typing y moves the cursor
to the match (column 1) and forces `rowoff` to 1; terminating with
Escape (prompt returns NULL) leaves that position in place (`cx` stays
1, `rowoff` stays 1, not the saved 0), while terminating with Enter
restores the saved position (`cx` and `rowoff` back to 0) instead of
keeping the match position. -/
theorem editorFind_escape_keeps_enter_restores :
    findProbe.cx = 0 ∧ findProbe.rowoff = 0 ∧
    (editorFindCallback ['y'] 121 findProbe initialFindState).1.cx = 1 ∧
    (editorFind findProbe initialFindState [121, ESC_KEY]).1.cx = 1 ∧
    (editorFind findProbe initialFindState [121, ESC_KEY]).1.rowoff = 1 ∧
    (editorFind findProbe initialFindState [121, ENTER_KEY]).1.cx = 0 ∧
    (editorFind findProbe initialFindState [121, ENTER_KEY]).1.rowoff = 0 := by
  decide

/-- A successful `strstrPos` leaves room for the needle in the haystack. -/
theorem strstrPos_bound (hay ndl : List Char) (pos : Nat)
    (h : strstrPos hay ndl = some pos) : pos + ndl.length ≤ hay.length := by
  induction hay generalizing pos with
  | nil =>
    unfold strstrPos at h
    by_cases hp : ndl.isPrefixOf ([] : List Char)
    · rw [if_pos hp] at h
      have : ndl = [] := by
        cases ndl with
        | nil => rfl
        | cons a t => simp [List.isPrefixOf] at hp
      simp [this] at h ⊢
      omega
    · rw [if_neg hp] at h
      exact absurd h (by simp)
  | cons a t ih =>
    unfold strstrPos at h
    by_cases hp : ndl.isPrefixOf (a :: t)
    · rw [if_pos hp] at h
      have hle : ndl.length ≤ (a :: t).length :=
        (List.isPrefixOf_iff_prefix.mp hp).length_le
      have : pos = 0 := by simpa using h.symm
      omega
    · rw [if_neg hp] at h
      have h2 : Option.map (fun p => p + 1) (strstrPos t ndl) = some pos := h
      cases hm : strstrPos t ndl with
      | none =>
        rw [hm] at h2
        simp at h2
      | some p =>
        rw [hm] at h2
        simp only [Option.map_some'] at h2
        have hb := ih p hm
        have hpos : p + 1 = pos := by
          injection h2
        simp only [List.length_cons]
        omega

/-- Number of rows is unchanged by `hlRestore`. -/
theorem hlRestore_numrows (st : editorConfig) (fs : FindState) :
    (hlRestore st fs).numrows = st.numrows := by
  unfold hlRestore
  cases h : fs.saved_hl with
  | none => rfl
  | some p =>
    obtain ⟨line, saved⟩ := p
    simp [editorConfig.numrows]

/-- Setting a row whose render agrees with the old entry preserves every
row's render as read through `getD`. -/
theorem getD_render_set (l : List erow) (j : Nat) (r2 : erow)
    (hr : r2.render = (l.getD j default).render) (i : Nat) :
    ((l.set j r2).getD i default).render = (l.getD i default).render := by
  by_cases hj : j < l.length
  · by_cases hij : i = j
    · subst hij
      rw [getD_set_self _ _ _ _ hj, hr]
    · rw [getD_set_ne _ _ _ _ _ (fun h => hij h.symm)]
  · rw [list_set_of_length_le _ _ _ (by omega)]

/-- Equation for `hlRestore` with no pending snapshot. -/
theorem hlRestore_none (st : editorConfig) (fs : FindState)
    (h : fs.saved_hl = none) : hlRestore st fs = st := by
  unfold hlRestore
  rw [h]

/-- Equation for `hlRestore` with a pending snapshot. -/
theorem hlRestore_some (st : editorConfig) (fs : FindState) (line : Nat)
    (saved : List Nat) (h : fs.saved_hl = some (line, saved)) :
    hlRestore st fs =
      { st with row := st.row.set line (restoredRow (st.row.getD line default) saved) } := by
  unfold hlRestore
  rw [h]

/-- `hlRestore` touches only highlight data: renders are unchanged. -/
theorem hlRestore_getD_render (st : editorConfig) (fs : FindState) (i : Nat) :
    ((hlRestore st fs).row.getD i default).render =
      (st.row.getD i default).render := by
  cases h : fs.saved_hl with
  | none => rw [hlRestore_none st fs h]
  | some p =>
    obtain ⟨line, saved⟩ := p
    rw [hlRestore_some st fs line saved h]
    exact getD_render_set st.row line
      (restoredRow (st.row.getD line default) saved) rfl i

/-- Number of rows is unchanged by `applyMatch`. -/
theorem applyMatch_numrows (st : editorConfig) (fs : FindState)
    (q : List Char) (cur pos : Nat) :
    (applyMatch st fs q cur pos).1.numrows = st.numrows := by
  simp [applyMatch, editorConfig.numrows]

/-- `applyMatch` touches only highlight data: renders are unchanged. -/
theorem applyMatch_getD_render (st : editorConfig) (fs : FindState)
    (q : List Char) (cur pos : Nat) (i : Nat) :
    ((applyMatch st fs q cur pos).1.row.getD i default).render =
      (st.row.getD i default).render := by
  show ((st.row.set cur (matchedRow (st.row.getD cur default) q pos)).getD i
      default).render = (st.row.getD i default).render
  exact getD_render_set st.row cur
    (matchedRow (st.row.getD cur default) q pos) rfl i

/-- Projections of the match branch: the match row becomes both the
new `last_match` and the cursor row. -/
theorem applyMatch_proj (st : editorConfig) (fs : FindState)
    (q : List Char) (cur pos : Nat) :
    (applyMatch st fs q cur pos).2.last_match = (cur : Int) ∧
      (applyMatch st fs q cur pos).1.cy = cur := ⟨rfl, rfl⟩

/-- Unfolding of `editorFindCallback` for any non-terminating key when
the statics are in their fresh state: whatever the key, `last_match`
stays (or becomes) -1, so the loop runs forward from row -1. -/
theorem callback_fresh (q : List Char) (k : Nat) (st : editorConfig)
    (hk1 : k ≠ ENTER_KEY) (hk2 : k ≠ ESC_KEY) :
    editorFindCallback q k st initialFindState =
      findLoop st { last_match := -1, direction := 1, saved_hl := none } q
        (-1) st.numrows := by
  unfold editorFindCallback
  rw [if_neg (by rintro (h | h) <;> [exact hk1 h; exact hk2 h])]
  by_cases ha : k = ARROW_RIGHT ∨ k = ARROW_DOWN
  · rw [if_pos ha]; rfl
  · rw [if_neg ha]
    by_cases hb : k = ARROW_LEFT ∨ k = ARROW_UP
    · rw [if_pos hb]; rfl
    · rw [if_neg hb]; rfl

/-- Unfolding of `editorFindCallback` for the Down arrow when a last
match exists: direction becomes forward and the loop starts from the
last match row on the restored state. -/
theorem callback_down (q : List Char) (st : editorConfig) (fs : FindState)
    (h : fs.last_match ≠ -1) :
    editorFindCallback q ARROW_DOWN st fs =
      findLoop (hlRestore st fs)
        { last_match := fs.last_match, direction := 1, saved_hl := none } q
        fs.last_match (hlRestore st fs).numrows := by
  unfold editorFindCallback
  rw [if_neg (by rintro (hc | hc) <;> simp [ENTER_KEY, ESC_KEY, ARROW_DOWN] at hc)]
  rw [if_pos (Or.inr rfl)]
  simp only []
  rw [if_neg h]

/-- One-step hit of the search loop: with forward direction and a match
in row 0, starting from `current = -1` finds row 0 immediately. -/
theorem findLoop_start_hit (st : editorConfig) (fs : FindState) (q : List Char)
    (hdir : fs.direction = 1) (hn : 0 < st.numrows) (pos : Nat)
    (h0 : strstrPos (st.row.getD 0 default).render q = some pos) :
    findLoop st fs q (-1) st.numrows = applyMatch st fs q 0 pos := by
  obtain ⟨m, hm⟩ : ∃ m, st.numrows = m + 1 := ⟨st.numrows - 1, by omega⟩
  rw [hm]
  simp only [findLoop, hdir]
  rw [show (-1 : Int) + 1 = 0 from by decide]
  rw [if_neg (show ¬(0 : Int) = -1 from by decide)]
  simp only [ite_self]
  rw [show ((0 : Int).toNat) = 0 from rfl]
  rw [h0]

/-- Wrap-around walk of the search loop: with forward direction, a
match in row 0 and no match in any later row, the loop started at
`numrows - fuel` walks through the remaining rows, wraps, and lands on
row 0. -/
theorem findLoop_wrap_hit (st : editorConfig) (fs : FindState) (q : List Char)
    (hdir : fs.direction = 1) (pos : Nat)
    (h0 : strstrPos (st.row.getD 0 default).render q = some pos)
    (hrest : ∀ i, i < st.numrows → 0 < i →
      strstrPos (st.row.getD i default).render q = none) :
    ∀ fuel, 1 ≤ fuel → fuel ≤ st.numrows →
      findLoop st fs q ((st.numrows : Int) - fuel) fuel =
        applyMatch st fs q 0 pos := by
  intro fuel
  induction fuel with
  | zero => omega
  | succ m ih =>
    intro h1 h2
    rcases Nat.eq_zero_or_pos m with hm0 | hmpos
    · subst hm0
      simp only [findLoop, hdir]
      have hc1 : (st.numrows : Int) - ((1 : Nat) : Int) + 1 = (st.numrows : Int) := by
        push_cast
        ring
      rw [hc1]
      rw [if_neg (by omega)]
      rw [if_pos rfl]
      show (match strstrPos ((st.row.getD (0 : Int).toNat default).render) q with
        | some p => applyMatch st fs q (0 : Int).toNat p
        | none => findLoop st fs q 0 0) = applyMatch st fs q 0 pos
      rw [show ((0 : Int).toNat) = 0 from rfl, h0]
    · simp only [findLoop, hdir]
      have hc1 : (st.numrows : Int) - (((m + 1 : Nat)) : Int) + 1 =
          (st.numrows : Int) - ((m : Nat) : Int) := by
        push_cast
        ring
      rw [hc1]
      rw [if_neg (by omega)]
      rw [if_neg (by omega)]
      have htn : ((st.numrows : Int) - ((m : Nat) : Int)).toNat = st.numrows - m := by
        omega
      have hnone : strstrPos
          ((st.row.getD ((st.numrows : Int) - ((m : Nat) : Int)).toNat default).render) q =
          none := by
        rw [htn]
        exact hrest (st.numrows - m) (by omega) (by omega)
      rw [hnone]
      exact ih hmpos (by omega)

/-- C8: a search step starts from `last_match` (row 0 when there is
none), advances one row at a time in the current direction, wraps
circularly, and scans at most once around the document: for a document
whose only row containing the query is row 0, a forward search step
(any non-terminating key from the fresh state) lands on row 0, and a
second forward step (Down arrow) with the same query walks the
remaining rows, wraps, and lands on row 0 again. -/
theorem search_wrap_row0 (st : editorConfig) (q : List Char) (k : Nat)
    (hn : 0 < st.numrows) (pos : Nat)
    (h0 : strstrPos (st.row.getD 0 default).render q = some pos)
    (hrest : ∀ i, i < st.numrows → 0 < i →
      strstrPos (st.row.getD i default).render q = none)
    (hk1 : k ≠ ENTER_KEY) (hk2 : k ≠ ESC_KEY) :
    (editorFindCallback q k st initialFindState).2.last_match = 0 ∧
    (editorFindCallback q k st initialFindState).1.cy = 0 ∧
    (editorFindCallback q ARROW_DOWN
        (editorFindCallback q k st initialFindState).1
        (editorFindCallback q k st initialFindState).2).2.last_match = 0 ∧
    (editorFindCallback q ARROW_DOWN
        (editorFindCallback q k st initialFindState).1
        (editorFindCallback q k st initialFindState).2).1.cy = 0 := by
  have e1 : editorFindCallback q k st initialFindState =
      applyMatch st { last_match := -1, direction := 1, saved_hl := none } q 0 pos := by
    rw [callback_fresh q k st hk1 hk2]
    exact findLoop_start_hit st _ q rfl hn pos h0
  have hlm : (editorFindCallback q k st initialFindState).2.last_match = 0 := by
    rw [e1]; rfl
  have hcy : (editorFindCallback q k st initialFindState).1.cy = 0 := by
    rw [e1]; rfl
  refine ⟨hlm, hcy, ?_⟩
  have hlm' : (editorFindCallback q k st initialFindState).2.last_match ≠ -1 := by
    rw [hlm]; decide
  have hRnum : (hlRestore (editorFindCallback q k st initialFindState).1
      (editorFindCallback q k st initialFindState).2).numrows = st.numrows := by
    rw [hlRestore_numrows, e1, applyMatch_numrows]
  have hRrender : ∀ i,
      ((hlRestore (editorFindCallback q k st initialFindState).1
          (editorFindCallback q k st initialFindState).2).row.getD i default).render =
        (st.row.getD i default).render := by
    intro i
    rw [hlRestore_getD_render, e1, applyMatch_getD_render]
  have h0R : strstrPos
      ((hlRestore (editorFindCallback q k st initialFindState).1
          (editorFindCallback q k st initialFindState).2).row.getD 0 default).render
        q = some pos := by
    rw [hRrender]; exact h0
  have hrestR : ∀ i,
      i < (hlRestore (editorFindCallback q k st initialFindState).1
          (editorFindCallback q k st initialFindState).2).numrows → 0 < i →
        strstrPos
          ((hlRestore (editorFindCallback q k st initialFindState).1
              (editorFindCallback q k st initialFindState).2).row.getD i
            default).render q = none := by
    intro i hi hip
    rw [hRrender]
    exact hrest i (by rw [hRnum] at hi; exact hi) hip
  have hww := findLoop_wrap_hit
    (hlRestore (editorFindCallback q k st initialFindState).1
      (editorFindCallback q k st initialFindState).2)
    { last_match := 0, direction := 1, saved_hl := none }
    q rfl pos h0R hrestR
    (hlRestore (editorFindCallback q k st initialFindState).1
      (editorFindCallback q k st initialFindState).2).numrows
    (by rw [hRnum]; omega) (le_refl _)
  have hz : (((hlRestore (editorFindCallback q k st initialFindState).1
      (editorFindCallback q k st initialFindState).2).numrows : Int) -
      ((hlRestore (editorFindCallback q k st initialFindState).1
        (editorFindCallback q k st initialFindState).2).numrows : Nat)) = 0 := by
    omega
  rw [hz] at hww
  have e2 : editorFindCallback q ARROW_DOWN
      (editorFindCallback q k st initialFindState).1
      (editorFindCallback q k st initialFindState).2 =
      applyMatch
        (hlRestore (editorFindCallback q k st initialFindState).1
          (editorFindCallback q k st initialFindState).2)
        { last_match := 0, direction := 1, saved_hl := none }
        q 0 pos := by
    rw [callback_down q _ _ hlm', hlm]
    exact hww
  constructor
  · rw [e2]; rfl
  · rw [e2]; rfl

/-- Witness for C8: searching for a (typed as key 97) on `wrapProbe`
lands on row 0, and a Down-arrow repeat wraps around back to row 0. -/
theorem search_wrap_row0_witness :
    (0 < wrapProbe.numrows ∧
      strstrPos (wrapProbe.row.getD 0 default).render ['a'] = some 0 ∧
      (∀ i, i < wrapProbe.numrows → 0 < i →
        strstrPos (wrapProbe.row.getD i default).render ['a'] = none) ∧
      (97 : Nat) ≠ ENTER_KEY ∧ (97 : Nat) ≠ ESC_KEY) ∧
    ((editorFindCallback ['a'] 97 wrapProbe initialFindState).2.last_match = 0 ∧
      (editorFindCallback ['a'] 97 wrapProbe initialFindState).1.cy = 0 ∧
      (editorFindCallback ['a'] ARROW_DOWN
          (editorFindCallback ['a'] 97 wrapProbe initialFindState).1
          (editorFindCallback ['a'] 97 wrapProbe initialFindState).2).2.last_match = 0 ∧
      (editorFindCallback ['a'] ARROW_DOWN
          (editorFindCallback ['a'] 97 wrapProbe initialFindState).1
          (editorFindCallback ['a'] 97 wrapProbe initialFindState).2).1.cy = 0) :=
  ⟨⟨by decide, by decide, by decide, by decide, by decide⟩,
    search_wrap_row0 wrapProbe ['a'] 97 (by decide) 0 (by decide) (by decide)
      (by decide) (by decide)⟩

/-- `getD` at an in-range index is a member of the list. -/
theorem getD_mem {α : Type} (l : List α) (i : Nat) (d : α)
    (h : i < l.length) : l.getD i d ∈ l := by
  induction l generalizing i with
  | nil => simp at h
  | cons x t ih =>
    cases i with
    | zero => exact List.mem_cons_self _ _
    | succ n =>
      simp only [List.getD_cons_succ]
      exact List.mem_cons_of_mem _ (ih n (by simpa using h))

/-- `getD` past the end returns the fallback. -/
theorem getD_of_length_le {α : Type} (l : List α) (i : Nat) (d : α)
    (h : l.length ≤ i) : l.getD i d = d := by
  induction l generalizing i with
  | nil => rfl
  | cons x t ih =>
    cases i with
    | zero => simp at h
    | succ n =>
      simp only [List.getD_cons_succ]
      exact ih n (by simpa using h)

/-- Pointwise form of `hlWF`. -/
theorem hlWF_getD (st : editorConfig) (h : hlWF st = true) (i : Nat) :
    ((st.row.getD i default).hl).length =
      ((st.row.getD i default).render).length := by
  by_cases hi : i < st.row.length
  · have hmem : st.row.getD i default ∈ st.row := getD_mem _ _ _ hi
    have hb := List.all_eq_true.mp h _ hmem
    simpa using hb
  · rw [getD_of_length_le _ _ _ (by omega)]
    rfl

/-- Pointwise consequence of `rowsHl` equality. -/
theorem rowsHl_getD (st st2 : editorConfig) (h : rowsHl st = rowsHl st2)
    (i : Nat) : (st.row.getD i default).hl = (st2.row.getD i default).hl := by
  have h1 := map_getD erow.hl st.row i default
  have h2 := map_getD erow.hl st2.row i default
  rw [← h1, ← h2]
  rw [show st.row.map erow.hl = rowsHl st from rfl,
    show st2.row.map erow.hl = rowsHl st2 from rfl, h]

/-- Pointwise consequence of `rowsRender` equality. -/
theorem rowsRender_getD (st st2 : editorConfig)
    (h : rowsRender st = rowsRender st2) (i : Nat) :
    (st.row.getD i default).render = (st2.row.getD i default).render := by
  have h1 := map_getD erow.render st.row i default
  have h2 := map_getD erow.render st2.row i default
  rw [← h1, ← h2]
  rw [show st.row.map erow.render = rowsRender st from rfl,
    show st2.row.map erow.render = rowsRender st2 from rfl, h]

/-- `hlRestore` never changes the render sequences. -/
theorem hlRestore_rowsRender (st : editorConfig) (fs : FindState) :
    rowsRender (hlRestore st fs) = rowsRender st := by
  cases h : fs.saved_hl with
  | none => rw [hlRestore_none st fs h]
  | some p =>
    obtain ⟨line, saved⟩ := p
    rw [hlRestore_some st fs line saved h]
    show (st.row.set line (restoredRow (st.row.getD line default) saved)).map
      erow.render = st.row.map erow.render
    exact map_set_of_eq erow.render st.row line _ default rfl

/-- Core snapshot lemma: applying a match overlay together with the
snapshot it saves preserves the search invariant — restoring the
snapshot recovers the original highlight sequences exactly. -/
theorem applyMatch_SearchInv (st0 st : editorConfig) (fs : FindState)
    (q : List Char) (cur pos : Nat)
    (hwf : hlWF st0 = true)
    (hrender : rowsRender st = rowsRender st0)
    (hhl : rowsHl st = rowsHl st0)
    (hm : strstrPos ((st.row.getD cur default).render) q = some pos) :
    SearchInv st0 (applyMatch st fs q cur pos).1 (applyMatch st fs q cur pos).2 := by
  constructor
  · have hstep : rowsRender (applyMatch st fs q cur pos).1 = rowsRender st := by
      show (st.row.set cur (matchedRow (st.row.getD cur default) q pos)).map
        erow.render = st.row.map erow.render
      exact map_set_of_eq erow.render st.row cur _ default rfl
    rw [hstep, hrender]
  · have hsome : (applyMatch st fs q cur pos).2.saved_hl =
        some (cur, (st.row.getD cur default).hl) := rfl
    rw [hlRestore_some _ _ cur ((st.row.getD cur default).hl) hsome]
    by_cases hcur : cur < st.row.length
    · have hlen_hl : (st.row.getD cur default).hl.length =
          (st.row.getD cur default).render.length := by
        rw [rowsHl_getD st st0 hhl cur, rowsRender_getD st st0 hrender cur]
        exact hlWF_getD st0 hwf cur
      have hbound : pos + q.length ≤ (st.row.getD cur default).render.length :=
        strstrPos_bound _ _ _ hm
      have hrow1 : (applyMatch st fs q cur pos).1.row =
          st.row.set cur (matchedRow (st.row.getD cur default) q pos) := rfl
      have hget : ((applyMatch st fs q cur pos).1.row.getD cur default) =
          matchedRow (st.row.getD cur default) q pos := by
        rw [hrow1]
        exact getD_set_self _ _ _ _ (by simpa using hcur)
      have hmlen : (matchedRow (st.row.getD cur default) q pos).hl.length =
          (st.row.getD cur default).render.length := by
        show ((st.row.getD cur default).hl.take pos ++
          List.replicate q.length HL_MATCH ++
          (st.row.getD cur default).hl.drop (pos + q.length)).length =
          (st.row.getD cur default).render.length
        simp only [List.length_append, List.length_take, List.length_replicate,
          List.length_drop]
        omega
      have hrestored :
          restoredRow ((applyMatch st fs q cur pos).1.row.getD cur default)
            ((st.row.getD cur default).hl) =
          { matchedRow (st.row.getD cur default) q pos with
              hl := (st.row.getD cur default).hl } := by
        rw [hget]
        show ({ matchedRow (st.row.getD cur default) q pos with
            hl := (st.row.getD cur default).hl.take
                (matchedRow (st.row.getD cur default) q pos).rsize ++
              (matchedRow (st.row.getD cur default) q pos).hl.drop
                (matchedRow (st.row.getD cur default) q pos).rsize } : erow) = _
        have hrs : (matchedRow (st.row.getD cur default) q pos).rsize =
            (st.row.getD cur default).render.length := rfl
        rw [hrs]
        have htk : (st.row.getD cur default).hl.take
            (st.row.getD cur default).render.length =
            (st.row.getD cur default).hl := by
          rw [← hlen_hl]
          exact List.take_length _
        have hdp : (matchedRow (st.row.getD cur default) q pos).hl.drop
            (st.row.getD cur default).render.length = [] := by
          rw [← hmlen]
          exact List.drop_length _
        rw [htk, hdp, List.append_nil]
      rw [hrestored]
      show ((st.row.set cur (matchedRow (st.row.getD cur default) q pos)).set cur
        ({ matchedRow (st.row.getD cur default) q pos with
            hl := (st.row.getD cur default).hl })).map erow.hl = rowsHl st0
      rw [List.set_set]
      exact (map_set_of_eq erow.hl st.row cur _ default rfl).trans hhl
    · have hnoop1 : st.row.set cur (matchedRow (st.row.getD cur default) q pos) =
          st.row := list_set_of_length_le _ _ _ (by omega)
      have hrow1 : (applyMatch st fs q cur pos).1.row = st.row := by
        show st.row.set cur (matchedRow (st.row.getD cur default) q pos) = st.row
        exact hnoop1
      show ((applyMatch st fs q cur pos).1.row.set cur
        (restoredRow ((applyMatch st fs q cur pos).1.row.getD cur default)
          ((st.row.getD cur default).hl))).map erow.hl = rowsHl st0
      rw [hrow1, list_set_of_length_le _ _ _ (by omega)]
      exact hhl

/-- The search loop either does nothing or applies a match it found. -/
theorem findLoop_cases (st : editorConfig) (fs : FindState) (q : List Char) :
    ∀ (fuel : Nat) (current : Int),
      findLoop st fs q current fuel = (st, fs) ∨
      ∃ cur pos, strstrPos ((st.row.getD cur default).render) q = some pos ∧
        findLoop st fs q current fuel = applyMatch st fs q cur pos := by
  intro fuel
  induction fuel with
  | zero => intro current; left; rfl
  | succ m ih =>
    intro current
    simp only [findLoop]
    split
    · right
      exact ⟨_, _, by assumption, rfl⟩
    · exact ih _

/-- The search loop preserves the search invariant when no snapshot is
pending on entry. -/
theorem findLoop_SearchInv (st0 : editorConfig) (hwf : hlWF st0 = true)
    (stx : editorConfig) (fsx : FindState) (q : List Char) (cur : Int)
    (fuel : Nat)
    (hrender : rowsRender stx = rowsRender st0)
    (hhl : rowsHl stx = rowsHl st0)
    (hsaved : fsx.saved_hl = none) :
    SearchInv st0 (findLoop stx fsx q cur fuel).1
      (findLoop stx fsx q cur fuel).2 := by
  rcases findLoop_cases stx fsx q fuel cur with hcase | ⟨cur2, pos, hmm, hcase⟩
  · rw [hcase]
    refine ⟨hrender, ?_⟩
    rw [hlRestore_none _ _ hsaved]
    exact hhl
  · rw [hcase]
    exact applyMatch_SearchInv st0 stx fsx q cur2 pos hwf hrender hhl hmm

/-- On Enter or Escape the callback leaves no snapshot behind. -/
theorem callback_term_saved (q : List Char) (k : Nat) (st : editorConfig)
    (fs : FindState) (hk : k = ENTER_KEY ∨ k = ESC_KEY) :
    (editorFindCallback q k st fs).2.saved_hl = none := by
  unfold editorFindCallback
  rw [if_pos hk]

/-- On Enter or Escape the callback's state is the restored state. -/
theorem callback_term_eq (q : List Char) (k : Nat) (st : editorConfig)
    (fs : FindState) (hk : k = ENTER_KEY ∨ k = ESC_KEY) :
    (editorFindCallback q k st fs).1 = hlRestore st fs := by
  unfold editorFindCallback
  rw [if_pos hk]

/-- Every single callback invocation preserves the search invariant:
the pending snapshot is restored before anything else, and a new match
saves a snapshot that undoes exactly the overlay it writes. -/
theorem callback_SearchInv (st0 : editorConfig) (hwf : hlWF st0 = true)
    (q : List Char) (k : Nat) (st : editorConfig) (fs : FindState)
    (h : SearchInv st0 st fs) :
    SearchInv st0 (editorFindCallback q k st fs).1
      (editorFindCallback q k st fs).2 := by
  obtain ⟨hrender, hhl⟩ := h
  have hrend1 : rowsRender (hlRestore st fs) = rowsRender st0 := by
    rw [hlRestore_rowsRender]; exact hrender
  unfold editorFindCallback
  by_cases hk : k = ENTER_KEY ∨ k = ESC_KEY
  · rw [if_pos hk]
    refine ⟨hrend1, ?_⟩
    rw [hlRestore_none _ _ rfl]
    exact hhl
  · rw [if_neg hk]
    by_cases ha : k = ARROW_RIGHT ∨ k = ARROW_DOWN
    · rw [if_pos ha]
      simp only []
      by_cases hb : fs.last_match = -1
      · rw [if_pos hb]
        exact findLoop_SearchInv st0 hwf _ _ q _ _ hrend1 hhl rfl
      · rw [if_neg hb]
        exact findLoop_SearchInv st0 hwf _ _ q _ _ hrend1 hhl rfl
    · rw [if_neg ha]
      by_cases hc : k = ARROW_LEFT ∨ k = ARROW_UP
      · rw [if_pos hc]
        simp only []
        by_cases hb : fs.last_match = -1
        · rw [if_pos hb]
          exact findLoop_SearchInv st0 hwf _ _ q _ _ hrend1 hhl rfl
        · rw [if_neg hb]
          exact findLoop_SearchInv st0 hwf _ _ q _ _ hrend1 hhl rfl
      · rw [if_neg hc]
        simp only []
        rw [if_pos trivial]
        exact findLoop_SearchInv st0 hwf _ _ q _ _ hrend1 hhl rfl

/-- Highlight preservation through the whole prompt loop: any session
that terminates (Enter or Escape) ends with the highlight sequences it
started from, because the terminating callback performs the final
snapshot restore. -/
theorem prompt_rowsHl (st0 : editorConfig) (hwf : hlWF st0 = true) :
    ∀ (keys : List Nat) (st : editorConfig) (fs : FindState) (buf : List Char),
      SearchInv st0 st fs →
      (editorPrompt st fs buf keys).2.2.isSome = true →
      rowsHl (editorPrompt st fs buf keys).1 = rowsHl st0 := by
  intro keys
  induction keys with
  | nil =>
    intro st fs buf hinv hterm
    simp [editorPrompt] at hterm
  | cons c rest ih =>
    intro st fs buf hinv hterm
    rw [editorPrompt] at hterm ⊢
    by_cases h1 : c = DEL_KEY ∨ c = CTRL_H ∨ c = BACKSPACE
    · rw [if_pos h1] at hterm ⊢
      exact ih _ _ _ (callback_SearchInv st0 hwf _ c st fs hinv) hterm
    · rw [if_neg h1] at hterm ⊢
      by_cases h2 : c = ESC_KEY
      · rw [if_pos h2] at hterm ⊢
        have hres := (callback_SearchInv st0 hwf buf c st fs hinv).2
        rw [hlRestore_none _ _ (callback_term_saved buf c st fs (Or.inr h2))]
          at hres
        exact hres
      · rw [if_neg h2] at hterm ⊢
        by_cases h3 : c = ENTER_KEY
        · rw [if_pos h3] at hterm ⊢
          by_cases h4 : buf.length ≠ 0
          · rw [if_pos h4] at hterm ⊢
            have hres := (callback_SearchInv st0 hwf buf c st fs hinv).2
            rw [hlRestore_none _ _ (callback_term_saved buf c st fs (Or.inl h3))]
              at hres
            exact hres
          · rw [if_neg h4] at hterm ⊢
            exact ih _ _ _ (callback_SearchInv st0 hwf _ c st fs hinv) hterm
        · rw [if_neg h3] at hterm ⊢
          by_cases h5 : 32 ≤ c ∧ c ≤ 126
          · rw [if_pos h5] at hterm ⊢
            exact ih _ _ _ (callback_SearchInv st0 hwf _ c st fs hinv) hterm
          · rw [if_neg h5] at hterm ⊢
            exact ih _ _ _ (callback_SearchInv st0 hwf _ c st fs hinv) hterm

/-- C9: for every document whose rows are well formed (highlight length
equals render length, as `editorUpdateRow` guarantees) and every search
session over any key sequence that terminates with Enter or Escape —
in particular every session in which a match was found and a match-tag
overlay written — the highlight sequences of all rows after the prompt
ends are bit-for-bit identical to their state before the search began.
The model's `FindState.saved_hl : Option` is the single snapshot of the
C statics, and `editorFindCallback` restores it before any new match
overlay is applied. -/
theorem search_restores_highlight (st : editorConfig) (keys : List Nat)
    (hwf : hlWF st = true)
    (hterm : (editorPrompt st initialFindState [] keys).2.2.isSome = true) :
    rowsHl (editorPrompt st initialFindState [] keys).1 = rowsHl st :=
  prompt_rowsHl st hwf keys st initialFindState []
    ⟨rfl, by rw [hlRestore_none _ _ rfl]⟩ hterm

/-- Witness for C9: searching for y in the row xy writes a match
overlay (the mid-session highlight differs from the original), and
cancelling with Escape restores the original highlights exactly. -/
theorem search_restores_highlight_witness :
    (hlWF findProbe = true ∧
      (editorPrompt findProbe initialFindState [] [121, ESC_KEY]).2.2.isSome =
        true ∧
      rowsHl (editorPrompt findProbe initialFindState [] [121]).1 ≠
        rowsHl findProbe) ∧
    rowsHl (editorPrompt findProbe initialFindState [] [121, ESC_KEY]).1 =
      rowsHl findProbe :=
  ⟨⟨by decide, by decide, by decide⟩,
    search_restores_highlight findProbe [121, ESC_KEY] (by decide) (by decide)⟩
